import Mathlib

/-!
Verification of the OpenType GSUB substitution manager and the binary table
writer of this repository. The GSUB tree model and the `Substitution`
operations are embedded from `substitution.js`; the shared layout-resolution
helpers (`expandCoverage`, `binSearch`, `getLookupTables`) and the type codec
are modelled from the specification, since `layout.js` and `types.js` are not
among the provided sources.
-/

namespace OpenType

/-- A language system of the raw GSUB tree:
`{ reserved, reqFeatureIndex, featureIndexes }` (see `createDefaultTable` in
`substitution.js`). -/
structure LangSys where
  reserved : Nat
  reqFeatureIndex : Nat
  featureIndexes : List Nat
deriving DecidableEq

/-- A script record of the raw GSUB tree: `{ tag, script: { defaultLangSys,
langSysRecords } }`.  `defaultLangSys` may be absent (`Option`). -/
structure ScriptRecord where
  tag : String
  defaultLangSys : Option LangSys
  langSysRecords : List (String × LangSys)
deriving DecidableEq

/-- A feature record of the raw GSUB tree: `{ tag, feature: { featureParams,
lookupListIndexes } }`. -/
structure FeatureRecord where
  tag : String
  featureParams : Nat
  lookupListIndexes : List Nat
deriving DecidableEq

/-- A coverage-table range record `{ start, end, index }`; `end` is a Lean
keyword, stored here as `stop`. -/
structure RangeRecord where
  start : Nat
  stop : Nat
  index : Nat
deriving DecidableEq

/-- A coverage table: format 1 is an explicit sorted glyph list, format 2 a
list of ascending ranges. -/
inductive Coverage where
  | format1 (glyphs : List Nat)
  | format2 (ranges : List RangeRecord)
deriving DecidableEq

/-- One ligature of a ligature set: `{ ligGlyph, components }`. -/
structure LigatureTable where
  ligGlyph : Nat
  components : List Nat
deriving DecidableEq

/-- A GSUB lookup subtable.  `single1` is the delta format (`substFormat` 1)
of lookup type 1, `single2` the explicit-array format (`substFormat` 2);
`multiple`, `alternate` and `ligature` are the `substFormat` 1 subtables of
lookup types 2, 3 and 4. -/
inductive Subtable where
  | single1 (coverage : Coverage) (deltaGlyphId : Int)
  | single2 (coverage : Coverage) (substitute : List Nat)
  | multiple (coverage : Coverage) (sequences : List (List Nat))
  | alternate (coverage : Coverage) (alternateSets : List (List Nat))
  | ligature (coverage : Coverage) (ligatureSets : List (List LigatureTable))
deriving DecidableEq

/-- The `substFormat` field of a subtable. -/
def Subtable.substFormat : Subtable → Nat
  | .single1 _ _ => 1
  | .single2 _ _ => 2
  | .multiple _ _ => 1
  | .alternate _ _ => 1
  | .ligature _ _ => 1

/-- A lookup table `{ lookupType, lookupFlag, subtables }`. -/
structure LookupTable where
  lookupType : Nat
  lookupFlag : Nat
  subtables : List Subtable
deriving DecidableEq

/-- The raw GSUB tree `{ version, scripts, features, lookups }`. -/
structure GsubTable where
  version : Nat
  scripts : List ScriptRecord
  features : List FeatureRecord
  lookups : List LookupTable
deriving DecidableEq

/-- Embeds `Substitution.createDefaultTable` (substitution.js): a default
empty GSUB table with just a DFLT script and dflt lang sys. -/
def createDefaultTable : GsubTable :=
  { version := 1
  , scripts := [⟨"DFLT", some ⟨0, 0xffff, []⟩, []⟩]
  , features := []
  , lookups := [] }

/-- Modelled from the spec: layout.js is not among the provided sources;
`expandCoverage(coverage)` — format 1 returns the stored list verbatim;
format 2 flattens each `{start, end}` range into `start..end` inclusive, in
range order. -/
def expandCoverage : Coverage → List Nat
  | .format1 glyphs => glyphs
  | .format2 ranges => ranges.flatMap fun r => List.range' r.start (r.stop + 1 - r.start)

/-- Modelled from the spec: layout.js is not among the provided sources;
`binSearch(sortedGlyphs, id)` — classic binary search; found → index; not
found → `-1 - insertionPoint`.  On a sorted list the insertion point is the
number of elements below `id`. -/
def binSearch (sortedGlyphs : List Nat) (id : Nat) : Int :=
  if id ∈ sortedGlyphs then sortedGlyphs.indexOf id
  else -1 - (sortedGlyphs.filter (fun g => g < id)).length

/-- Modelled from the spec: resolve the language system of a script record —
the default language system for `"dflt"`, else the named record. -/
def langSysOf (sr : ScriptRecord) (language : String) : Option LangSys :=
  if language == "dflt" then sr.defaultLangSys
  else (sr.langSysRecords.find? (fun r => r.1 == language)).map (·.2)

/-- Modelled from the spec: resolve the language system for a script tag and
language tag in a GSUB tree. -/
def findLangSys (t : GsubTable) (script language : String) : Option LangSys :=
  match t.scripts.find? (fun sr => sr.tag == script) with
  | none => none
  | some sr => langSysOf sr language

/-- Modelled from the spec: the first feature index of the language system
whose feature record carries the requested tag. -/
def findFeatureIndex (t : GsubTable) (ls : LangSys) (feature : String) : Option Nat :=
  ls.featureIndexes.find? (fun i => (t.features.get? i).any (fun fr => fr.tag == feature))

/-- Modelled from the spec: lookup-list indexes of the resolved feature that
point at lookup tables of the requested type. -/
def getLookupIdxs (t : GsubTable) (script language feature : String) (ltype : Nat) : List Nat :=
  match findLangSys t script language with
  | none => []
  | some ls =>
    match findFeatureIndex t ls feature with
    | none => []
    | some fi =>
      match t.features.get? fi with
      | none => []
      | some fr =>
        fr.lookupListIndexes.filter
          (fun li => (t.lookups.get? li).any (fun lt => lt.lookupType == ltype))

/-- Modelled from the spec: layout.js is not among the provided sources;
`getLookupTables(script, language, feature, lookupType)` without `create` —
the lookup tables of the requested type reachable from the resolved
script/language/feature. -/
def getLookupTables (t : GsubTable) (script language feature : String) (ltype : Nat) :
    List LookupTable :=
  (getLookupIdxs t script language feature ltype).filterMap (fun li => t.lookups.get? li)

/-- A fresh empty language system used when wiring a missing entry. -/
def emptyLangSys : LangSys := ⟨0, 0xffff, []⟩

/-- Replace the language system selected by `language` in a script record
(the default one for `"dflt"`, else the named record, appended when new). -/
def setLangSys (sr : ScriptRecord) (language : String) (ls : LangSys) : ScriptRecord :=
  if language == "dflt" then { sr with defaultLangSys := some ls }
  else if (sr.langSysRecords.find? (fun r => r.1 == language)).isSome then
    { sr with langSysRecords :=
        sr.langSysRecords.map (fun r => if r.1 == language then (r.1, ls) else r) }
  else { sr with langSysRecords := sr.langSysRecords ++ [(language, ls)] }

/-- Modelled from the spec: wire the script record, creating it when absent.
Returns the updated tree and the script's index. -/
def ensureScript (t : GsubTable) (script : String) : GsubTable × Nat :=
  match t.scripts.findIdx? (fun sr => sr.tag == script) with
  | some i => (t, i)
  | none => ({ t with scripts := t.scripts ++ [⟨script, none, []⟩] }, t.scripts.length)

/-- Modelled from the spec: wire the language system of the script at `si`,
creating it when absent.  Returns the updated tree and the language system. -/
def ensureLangSys (t : GsubTable) (si : Nat) (script language : String) :
    GsubTable × LangSys :=
  let sr := (t.scripts.get? si).getD ⟨script, none, []⟩
  match langSysOf sr language with
  | some ls => (t, ls)
  | none =>
    ({ t with scripts := t.scripts.set si (setLangSys sr language emptyLangSys) }, emptyLangSys)

/-- Modelled from the spec: wire the feature record tagged `feature` into the
language system `ls` of the script at `si`, creating it when absent.  Returns
the updated tree and the feature's index. -/
def ensureFeature (t : GsubTable) (si : Nat) (script language feature : String) (ls : LangSys) :
    GsubTable × Nat :=
  match findFeatureIndex t ls feature with
  | some fi => (t, fi)
  | none =>
    let fi := t.features.length
    let sr := (t.scripts.get? si).getD ⟨script, none, []⟩
    let ls2 := { ls with featureIndexes := ls.featureIndexes ++ [fi] }
    ({ t with
        features := t.features ++ [⟨feature, 0, []⟩]
        scripts := t.scripts.set si (setLangSys sr language ls2) }, fi)

/-- Modelled from the spec: the first lookup table of the requested type
wired into the feature at `fi`, created (empty subtables, flag 0) and wired
when absent.  Returns the updated tree and the lookup's index. -/
def ensureLookup (t : GsubTable) (fi : Nat) (ltype : Nat) : GsubTable × Nat :=
  let fr := (t.features.get? fi).getD ⟨"", 0, []⟩
  match fr.lookupListIndexes.find?
      (fun li => (t.lookups.get? li).any (fun lt => lt.lookupType == ltype)) with
  | some li => (t, li)
  | none =>
    let li := t.lookups.length
    ({ t with
        lookups := t.lookups ++ [⟨ltype, 0, []⟩]
        features := t.features.set fi
          { fr with lookupListIndexes := fr.lookupListIndexes ++ [li] } }, li)

/-- Modelled from the spec: layout.js is not among the provided sources;
`getLookupTables(script, language, feature, lookupType, create = true)` —
synthesizes a fresh lookup table (given type, empty subtables, flag 0) and
wires script/language/feature entries as needed; idempotent per argument
tuple.  Returns the updated tree and the index (into `lookups`) of the first
lookup table of the requested type for the feature. -/
def getLookupTablesCreate (t : GsubTable) (script language feature : String) (ltype : Nat) :
    GsubTable × Nat :=
  let s1 := ensureScript t script
  let s2 := ensureLangSys s1.1 s1.2 script language
  let s3 := ensureFeature s2.1 s1.2 script language feature s2.2
  ensureLookup s3.1 s3.2 ltype

/-- A glyph argument of a substitution rule or result entry: one id or an
ordered sequence of ids (`sub`/`by` in substitution.js). -/
inductive GlyphArg where
  | one (g : Int)
  | seq (gs : List Nat)
deriving DecidableEq

/-- A `{ sub, by }` pair as consumed by `add` and produced by `get*`
(substitution.js); `by` is a Lean keyword, stored here as `by_`. -/
structure FeatEntry where
  sub : GlyphArg
  by_ : GlyphArg
deriving DecidableEq

/-- Embeds the per-subtable loop of `Substitution.getSingle`
(substitution.js).  The source computes `sub = glyphs[g]` and `by` once, in
the for-loop initializer, and then pushes that same pair `glyphs.length`
times; this embedding reproduces that behaviour.  A subtable of another
lookup type inside a type-1 lookup is a malformed tree and contributes
nothing. -/
def getSingleSubtable : Subtable → List FeatEntry
  | .single1 cov delta =>
    let glyphs := expandCoverage cov
    match glyphs.head? with
    | none => []
    | some g0 => List.replicate glyphs.length ⟨.one g0, .one (g0 + delta)⟩
  | .single2 cov substitute =>
    let glyphs := expandCoverage cov
    match glyphs.head? with
    | none => []
    | some g0 => List.replicate glyphs.length ⟨.one g0, .one (substitute.headD 0)⟩
  | _ => []

/-- Embeds `Substitution.getSingle` (substitution.js): list all single
substitutions (lookup type 1) for a given script, language and feature. -/
def getSingle (t : GsubTable) (feature script language : String) : List FeatEntry :=
  (getLookupTables t script language feature 1).flatMap fun lt =>
    lt.subtables.flatMap getSingleSubtable

/-- Embeds the per-subtable loop of `Substitution.getMultiple`
(substitution.js); like `getSingleSubtable`, the source fixes
`sub = glyphs[i]` and `by = sequences[i]` at `i = 0` in the loop
initializer. -/
def getMultipleSubtable : Subtable → List FeatEntry
  | .multiple cov sequences =>
    let glyphs := expandCoverage cov
    match glyphs.head? with
    | none => []
    | some g0 => List.replicate glyphs.length ⟨.one g0, .seq (sequences.headD [])⟩
  | _ => []

/-- Embeds `Substitution.getMultiple` (substitution.js): list all multiple
substitutions (lookup type 2). -/
def getMultiple (t : GsubTable) (feature script language : String) : List FeatEntry :=
  (getLookupTables t script language feature 2).flatMap fun lt =>
    lt.subtables.flatMap getMultipleSubtable

/-- Embeds the per-subtable loop of `Substitution.getAlternates`
(substitution.js); the loop initializer fixes the pair at index 0. -/
def getAlternatesSubtable : Subtable → List FeatEntry
  | .alternate cov alternateSets =>
    let glyphs := expandCoverage cov
    match glyphs.head? with
    | none => []
    | some g0 => List.replicate glyphs.length ⟨.one g0, .seq (alternateSets.headD [])⟩
  | _ => []

/-- Embeds `Substitution.getAlternates` (substitution.js): list all
alternates (lookup type 3). -/
def getAlternates (t : GsubTable) (feature script language : String) : List FeatEntry :=
  (getLookupTables t script language feature 3).flatMap fun lt =>
    lt.subtables.flatMap getAlternatesSubtable

/-- Embeds the per-subtable loop of `Substitution.getLigatures`
(substitution.js); the loop initializer fixes `startGlyph = glyphs[i]` and
`ligSet = ligatureSets[i]` at `i = 0`, and the inner loop over that single
ligature set runs once per covered glyph. -/
def getLigaturesSubtable : Subtable → List FeatEntry
  | .ligature cov ligatureSets =>
    let glyphs := expandCoverage cov
    match glyphs.head? with
    | none => []
    | some g0 =>
      let ligSet := ligatureSets.headD []
      (List.range glyphs.length).flatMap fun _ =>
        ligSet.map fun l => ⟨.seq (g0 :: l.components), .one l.ligGlyph⟩
  | _ => []

/-- Embeds `Substitution.getLigatures` (substitution.js): list all ligatures
(lookup type 4). -/
def getLigatures (t : GsubTable) (feature script language : String) : List FeatEntry :=
  (getLookupTables t script language feature 4).flatMap fun lt =>
    lt.subtables.flatMap getLigaturesSubtable

/-- Embeds `getSubstFormat` (substitution.js) in the always-default form the
`add*` callers use: find the first subtable in the given `substFormat`, else
append `dflt`.  Returns the (possibly extended) subtable list and the index
of the found or appended subtable. -/
def getSubstFormatIdx (subtables : List Subtable) (format : Nat) (dflt : Subtable) :
    List Subtable × Nat :=
  match subtables.findIdx? (fun st => st.substFormat == format) with
  | some i => (subtables, i)
  | none => (subtables ++ [dflt], subtables.length)

/-- Replace the subtable list of the lookup table at index `li`. -/
def setLookupSubtables (t : GsubTable) (li : Nat) (sts : List Subtable) : GsubTable :=
  match t.lookups.get? li with
  | none => t
  | some lt => { t with lookups := t.lookups.set li { lt with subtables := sts } }

/-- Embeds `Substitution.addSingle` (substitution.js): add or modify a single
substitution (lookup type 1), always in the explicit-array format 2.
`none` models a thrown error (coverage not format 1, or a malformed
subtable). -/
def addSingle (t : GsubTable) (feature : String) (subG byG : Nat) (script language : String) :
    Option GsubTable :=
  let r := getLookupTablesCreate t script language feature 1
  match r.1.lookups.get? r.2 with
  | none => none
  | some lt =>
    let s := getSubstFormatIdx lt.subtables 2 (.single2 (.format1 []) [])
    match s.1.get? s.2 with
    | some (.single2 (.format1 glyphs) substitute) =>
      let pos := binSearch glyphs subG
      let upd :=
        if pos < 0 then
          let p := (-1 - pos).toNat
          (glyphs.insertIdx p subG, (substitute.insertIdx p 0).set p byG)
        else (glyphs, substitute.set pos.toNat byG)
      some (setLookupSubtables r.1 r.2 (s.1.set s.2 (.single2 (.format1 upd.1) upd.2)))
    | _ => none

/-- Embeds `Substitution.addMultiple` (substitution.js): add or modify a
multiple substitution (lookup type 2); asserts that `by` holds two or more
ids.  The source splices a placeholder `0` into `sequences` and overwrites it
at the same position; the placeholder is modelled as `[]`. -/
def addMultiple (t : GsubTable) (feature : String) (subG : Nat) (byG : List Nat)
    (script language : String) : Option GsubTable :=
  if byG.length > 1 then
    let r := getLookupTablesCreate t script language feature 2
    match r.1.lookups.get? r.2 with
    | none => none
    | some lt =>
      let s := getSubstFormatIdx lt.subtables 1 (.multiple (.format1 []) [])
      match s.1.get? s.2 with
      | some (.multiple (.format1 glyphs) sequences) =>
        let pos := binSearch glyphs subG
        let upd :=
          if pos < 0 then
            let p := (-1 - pos).toNat
            (glyphs.insertIdx p subG, (sequences.insertIdx p []).set p byG)
          else (glyphs, sequences.set pos.toNat byG)
        some (setLookupSubtables r.1 r.2 (s.1.set s.2 (.multiple (.format1 upd.1) upd.2)))
      | _ => none
  else none

/-- Embeds `Substitution.addAlternate` (substitution.js): add or modify an
alternate substitution (lookup type 3). -/
def addAlternate (t : GsubTable) (feature : String) (subG : Nat) (byG : List Nat)
    (script language : String) : Option GsubTable :=
  let r := getLookupTablesCreate t script language feature 3
  match r.1.lookups.get? r.2 with
  | none => none
  | some lt =>
    let s := getSubstFormatIdx lt.subtables 1 (.alternate (.format1 []) [])
    match s.1.get? s.2 with
    | some (.alternate (.format1 glyphs) alternateSets) =>
      let pos := binSearch glyphs subG
      let upd :=
        if pos < 0 then
          let p := (-1 - pos).toNat
          (glyphs.insertIdx p subG, (alternateSets.insertIdx p []).set p byG)
        else (glyphs, alternateSets.set pos.toNat byG)
      some (setLookupSubtables r.1 r.2 (s.1.set s.2 (.alternate (.format1 upd.1) upd.2)))
    | _ => none

/-- Embeds `Substitution.addLigature` (substitution.js): add a ligature
(lookup type 4) to `subtables[0]`, creating it when missing.  Re-adding an
identical component sequence for a covered starting glyph returns the tree
unchanged; a new component sequence is pushed at the end of the existing
ligature set.  `none` models a thrown error or a malformed call (empty
`sub`). -/
def addLigature (t : GsubTable) (feature : String) (subIds : List Nat) (byG : Nat)
    (script language : String) : Option GsubTable :=
  let r := getLookupTablesCreate t script language feature 4
  match r.1.lookups.get? r.2 with
  | none => none
  | some lt =>
    let sts := if lt.subtables.isEmpty then [Subtable.ligature (.format1 []) []] else lt.subtables
    match sts.get? 0 with
    | some (.ligature (.format1 glyphs) sets) =>
      match subIds with
      | [] => none
      | covGlyph :: ligComponents =>
        let ligTable : LigatureTable := ⟨byG, ligComponents⟩
        let pos := binSearch glyphs covGlyph
        if pos ≥ 0 then
          let set0 := (sets.get? pos.toNat).getD []
          if set0.any (fun l => l.components == ligComponents) then some r.1
          else
            some (setLookupSubtables r.1 r.2 (sts.set 0
              (.ligature (.format1 glyphs) (sets.set pos.toNat (set0 ++ [ligTable])))))
        else
          let p := (-1 - pos).toNat
          some (setLookupSubtables r.1 r.2 (sts.set 0
            (.ligature (.format1 (glyphs.insertIdx p covGlyph)) (sets.insertIdx p [ligTable]))))
    | _ => none

/-- Helper for `ssRegexTest`: scan a character list for `s`, `s`, digit,
digit at consecutive positions. -/
def ssddTest : List Char → Bool
  | c0 :: c1 :: c2 :: c3 :: rest =>
    (c0 == 's' && c1 == 's' && c2.isDigit && c3.isDigit) || ssddTest (c1 :: c2 :: c3 :: rest)
  | _ => false

/-- Embeds the test `/ss\d\d/.test(feature)` used by `getFeature` and `add`
(substitution.js): an unanchored search for `ss` followed by two digits. -/
def ssRegexTest (s : String) : Bool := ssddTest s.toList

/-- Embeds `Substitution.getFeature` (substitution.js): the per-feature
dispatch over `get*`; `none` models the fall-through `return undefined`. -/
def getFeature (t : GsubTable) (feature script language : String) : Option (List FeatEntry) :=
  if ssRegexTest feature then some (getSingle t feature script language)
  else if feature == "aalt" || feature == "salt" then
    some (getSingle t feature script language ++ getAlternates t feature script language)
  else if feature == "dlig" || feature == "liga" || feature == "rlig" then
    some (getLigatures t feature script language)
  else if feature == "ccmp" then
    some (getMultiple t feature script language ++ getLigatures t feature script language)
  else if feature == "stch" then
    some (getMultiple t feature script language)
  else none

/-- Embeds `Substitution.add` (substitution.js): the per-feature dispatch
over `add*`.  The fall-through returns the tree unchanged (the source
returns `undefined` without mutating); a rule whose shape does not fit the
routed operation is modelled as `none` (the source would misbehave on it). -/
def add (t : GsubTable) (feature : String) (rule : FeatEntry) (script language : String) :
    Option GsubTable :=
  if ssRegexTest feature then
    match rule.sub, rule.by_ with
    | .one s, .one b => addSingle t feature s.toNat b.toNat script language
    | _, _ => none
  else if feature == "aalt" || feature == "salt" then
    match rule.sub, rule.by_ with
    | .one s, .one b => addSingle t feature s.toNat b.toNat script language
    | .one s, .seq bs => addAlternate t feature s.toNat bs script language
    | _, _ => none
  else if feature == "dlig" || feature == "liga" || feature == "rlig" then
    match rule.sub, rule.by_ with
    | .seq ss, .one b => addLigature t feature ss b.toNat script language
    | _, _ => none
  else if feature == "ccmp" then
    match rule.sub, rule.by_ with
    | .one s, .seq bs => addMultiple t feature s.toNat bs script language
    | .seq ss, .one b => addLigature t feature ss b.toNat script language
    | _, _ => none
  else some t

mutual
/-- A field value of a binary table.  The numeric constructors mirror the
wire primitives of the type codec (modelled from the spec, types.js is not
among the provided sources): BYTE(1), CHAR(1), USHORT/SHORT(2), UINT24(3),
ULONG/LONG(4), FIXED(4), FWORD/UFWORD(2), LONGDATETIME(8), TAG(4 ASCII
bytes), CHARARRAY(raw bytes) and TABLE (a nested table, written through a
2-byte offset). -/
inductive FieldVal where
  | byteV (v : Nat)
  | charV (v : Int)
  | uShort (v : Nat)
  | shortV (v : Int)
  | uInt24 (v : Nat)
  | uLong (v : Nat)
  | longV (v : Int)
  | fixedV (v : Nat)
  | fword (v : Int)
  | ufword (v : Nat)
  | longDateTime (v : Nat)
  | tagV (s : String)
  | charArray (bytes : List Nat)
  | subTable (t : Table)

/-- A binary table (table.js): an ordered, named field sequence. -/
inductive Table where
  | mk (tableName : String) (fields : List (String × FieldVal))
end

/-- One big-endian byte. -/
def u8 (v : Nat) : List Nat := [v % 256]

/-- Two big-endian bytes. -/
def u16be (v : Nat) : List Nat := [v / 256 % 256, v % 256]

/-- Three big-endian bytes. -/
def u24be (v : Nat) : List Nat := [v / 65536 % 256, v / 256 % 256, v % 256]

/-- Four big-endian bytes. -/
def u32be (v : Nat) : List Nat :=
  [v / 16777216 % 256, v / 65536 % 256, v / 256 % 256, v % 256]

/-- Eight big-endian bytes. -/
def u64be (v : Nat) : List Nat := u32be (v / 4294967296) ++ u32be v

/-- One byte of a signed value, two's complement. -/
def i8be (v : Int) : List Nat := u8 (v.emod 256).toNat

/-- Two bytes of a signed value, two's complement. -/
def i16be (v : Int) : List Nat := u16be (v.emod 65536).toNat

/-- Four bytes of a signed value, two's complement. -/
def i32be (v : Int) : List Nat := u32be (v.emod 4294967296).toNat

/-- The first four character codes of a tag string, zero-padded; the source
fails fast on tags whose length is not 4, for which the tree holds none. -/
def tagBytes (s : String) : List Nat :=
  ((s.toList.map Char.toNat) ++ List.replicate 4 0).take 4

/-- Modelled from the spec: the encoded bytes of a primitive field value.
All multi-byte integers big-endian.  A nested table is never encoded through
this function (the table engine writes a 2-byte offset in its place); the
`subTable` case is an unreachable placeholder of the same width. -/
def encodePrim : FieldVal → List Nat
  | .byteV v => u8 v
  | .charV v => i8be v
  | .uShort v => u16be v
  | .shortV v => i16be v
  | .uInt24 v => u24be v
  | .uLong v => u32be v
  | .longV v => i32be v
  | .fixedV v => u32be v
  | .fword v => i16be v
  | .ufword v => u16be v
  | .longDateTime v => u64be v
  | .tagV s => tagBytes s
  | .charArray bytes => bytes
  | .subTable _ => u16be 0

/-- Modelled from the spec: `sizeOf(type, value)` for one field — the
declared width of each primitive, the byte count for CHARARRAY, and a fixed
2-byte offset placeholder for a nested table. -/
def primSize : FieldVal → Nat
  | .byteV _ => 1
  | .charV _ => 1
  | .uShort _ => 2
  | .shortV _ => 2
  | .uInt24 _ => 3
  | .uLong _ => 4
  | .longV _ => 4
  | .fixedV _ => 4
  | .fword _ => 2
  | .ufword _ => 2
  | .longDateTime _ => 8
  | .tagV _ => 4
  | .charArray bytes => bytes.length
  | .subTable _ => 2

/-- The head length of a table: every scalar field's size plus a 2-byte
offset placeholder for every nested table field, in declaration order. -/
def headSize (fields : List (String × FieldVal)) : Nat :=
  (fields.map (fun f => primSize f.2)).sum

mutual
/-- Modelled from the spec: types.js is not among the provided sources;
`encode(table)` — two-pass.  Pass 1 computes the head length; pass 2 emits
the head (offsets filled with real relative positions) followed by the
fully-encoded bytes of each nested table, in field order; nested tables
recurse, each computing offsets relative to its own start. -/
def encodeTable : Table → List Nat
  | .mk _ fields =>
    let r := encodeFieldsAt fields (headSize fields)
    r.1 ++ r.2

/-- Pass 2 of `encodeTable`: `pos` is the running offset, relative to the
table start, at which the next nested table's bytes will be placed.  Returns
the head bytes and the concatenated nested-table bytes. -/
def encodeFieldsAt : List (String × FieldVal) → Nat → List Nat × List Nat
  | [], _ => ([], [])
  | (_, FieldVal.subTable st) :: rest, pos =>
    let enc := encodeTable st
    let r := encodeFieldsAt rest (pos + enc.length)
    (u16be pos ++ r.1, enc ++ r.2)
  | (_, v) :: rest, pos =>
    let r := encodeFieldsAt rest pos
    (encodePrim v ++ r.1, r.2)
end

mutual
/-- Modelled from the spec: `sizeOf(table)` — the same computation as
`encode` without materializing bytes: the head length plus the sizes of the
nested tables. -/
def sizeOfTable : Table → Nat
  | .mk _ fields => headSize fields + sizeOfSubs fields

/-- The summed sizes of the nested tables among a field list. -/
def sizeOfSubs : List (String × FieldVal) → Nat
  | [] => 0
  | (_, FieldVal.subTable st) :: rest => sizeOfTable st + sizeOfSubs rest
  | _ :: rest => sizeOfSubs rest
end

/-- Each primitive field value encodes to exactly its declared size. -/
theorem encodePrim_length (v : FieldVal) : (encodePrim v).length = primSize v := by
  cases v <;> simp [encodePrim, primSize, u8, u16be, u24be, u32be, u64be, i8be, i16be, i32be,
    tagBytes]

mutual
/-- Auxiliary size lemma for `encodeTable`. -/
theorem encodeTable_length_aux (t : Table) : (encodeTable t).length = sizeOfTable t := by
  match t with
  | .mk n fields =>
    have h := encodeFieldsAt_lengths fields (headSize fields)
    simp [encodeTable, sizeOfTable, h.1, h.2]

/-- The head produced by `encodeFieldsAt` has the head size, and the
appended nested-table bytes have the summed nested sizes. -/
theorem encodeFieldsAt_lengths (fs : List (String × FieldVal)) (pos : Nat) :
    (encodeFieldsAt fs pos).1.length = headSize fs ∧
    (encodeFieldsAt fs pos).2.length = sizeOfSubs fs := by
  match fs with
  | [] => simp [encodeFieldsAt, headSize, sizeOfSubs]
  | (n, FieldVal.subTable st) :: rest =>
    have ht := encodeTable_length_aux st
    have hr := encodeFieldsAt_lengths rest (pos + (encodeTable st).length)
    rw [ht] at hr
    simp only [encodeFieldsAt, List.length_append, ht, hr.1, hr.2, headSize, List.map_cons,
      List.sum_cons, sizeOfSubs, primSize, u16be, List.length_cons, List.length_nil]
    exact ⟨trivial, trivial⟩
  | (n, FieldVal.byteV v) :: rest =>
    have hr := encodeFieldsAt_lengths rest pos
    simp [encodeFieldsAt, headSize, sizeOfSubs, hr.1, hr.2, encodePrim, primSize, u8]
    omega
  | (n, FieldVal.charV v) :: rest =>
    have hr := encodeFieldsAt_lengths rest pos
    simp [encodeFieldsAt, headSize, sizeOfSubs, hr.1, hr.2, encodePrim, primSize, i8be, u8]
    omega
  | (n, FieldVal.uShort v) :: rest =>
    have hr := encodeFieldsAt_lengths rest pos
    simp [encodeFieldsAt, headSize, sizeOfSubs, hr.1, hr.2, encodePrim, primSize, u16be]
    omega
  | (n, FieldVal.shortV v) :: rest =>
    have hr := encodeFieldsAt_lengths rest pos
    simp [encodeFieldsAt, headSize, sizeOfSubs, hr.1, hr.2, encodePrim, primSize, i16be, u16be]
    omega
  | (n, FieldVal.uInt24 v) :: rest =>
    have hr := encodeFieldsAt_lengths rest pos
    simp [encodeFieldsAt, headSize, sizeOfSubs, hr.1, hr.2, encodePrim, primSize, u24be]
    omega
  | (n, FieldVal.uLong v) :: rest =>
    have hr := encodeFieldsAt_lengths rest pos
    simp [encodeFieldsAt, headSize, sizeOfSubs, hr.1, hr.2, encodePrim, primSize, u32be]
    omega
  | (n, FieldVal.longV v) :: rest =>
    have hr := encodeFieldsAt_lengths rest pos
    simp [encodeFieldsAt, headSize, sizeOfSubs, hr.1, hr.2, encodePrim, primSize, i32be, u32be]
    omega
  | (n, FieldVal.fixedV v) :: rest =>
    have hr := encodeFieldsAt_lengths rest pos
    simp [encodeFieldsAt, headSize, sizeOfSubs, hr.1, hr.2, encodePrim, primSize, u32be]
    omega
  | (n, FieldVal.fword v) :: rest =>
    have hr := encodeFieldsAt_lengths rest pos
    simp [encodeFieldsAt, headSize, sizeOfSubs, hr.1, hr.2, encodePrim, primSize, i16be, u16be]
    omega
  | (n, FieldVal.ufword v) :: rest =>
    have hr := encodeFieldsAt_lengths rest pos
    simp [encodeFieldsAt, headSize, sizeOfSubs, hr.1, hr.2, encodePrim, primSize, u16be]
    omega
  | (n, FieldVal.longDateTime v) :: rest =>
    have hr := encodeFieldsAt_lengths rest pos
    simp [encodeFieldsAt, headSize, sizeOfSubs, hr.1, hr.2, encodePrim, primSize, u64be, u32be]
    omega
  | (n, FieldVal.tagV s) :: rest =>
    have hr := encodeFieldsAt_lengths rest pos
    simp [encodeFieldsAt, headSize, sizeOfSubs, hr.1, hr.2, encodePrim, primSize, tagBytes]
    try omega
  | (n, FieldVal.charArray bytes) :: rest =>
    have hr := encodeFieldsAt_lengths rest pos
    simp [encodeFieldsAt, headSize, sizeOfSubs, hr.1, hr.2, encodePrim, primSize]
    try omega
end

/-- A property value hung on a `Table` instance by its constructor: a field
value, the `tableName` string, or the `fields` array (table.js hangs all
three kinds of property on `this`). -/
inductive PropVal (α : Type) where
  | val (v : α)
  | nameStr (s : String)
  | fieldList (fs : List (String × α))
deriving DecidableEq

/-- Assign one named property on an instance modelled as a lookup
function. -/
def setProp {α : Type} (p : String → Option (PropVal α)) (k : String) (v : PropVal α) :
    String → Option (PropVal α) :=
  fun q => if q = k then some v else p q

/-- Embeds the `Table` constructor (table.js) as the property map it leaves
on the instance: every field seeds `this[field.name] = field.value`, then
`this.tableName` and `this.fields` are assigned, then each option key is
written only when a same-named property is already present
(`this[k] !== undefined`). -/
def tableConstructorProps {α : Type} (tableName : String) (fields : List (String × α))
    (options : List (String × PropVal α)) : String → Option (PropVal α) :=
  let seeded := fields.foldl (fun p f => setProp p f.1 (.val f.2)) (fun _ => none)
  let withMeta := setProp (setProp seeded "tableName" (.nameStr tableName)) "fields"
    (.fieldList fields)
  options.foldl (fun p kv => if (p kv.1).isSome then setProp p kv.1 kv.2 else p) withMeta

/-- The value of the last binding of key `k` in an ordered key-value list
(later assignments of the same name win). -/
def lastVal {β : Type} (l : List (String × β)) (k : String) : Option β :=
  (l.reverse.find? (fun kv => kv.1 == k)).map (·.2)

/-- Embeds `ushortList(itemName, list)` (table.js) with the count argument
defaulted to `list.length`, as at every use inside the embedded
constructors: a `{itemName}Count` USHORT field followed by one USHORT field
per element. -/
def ushortList (itemName : String) (list : List Nat) : List (String × FieldVal) :=
  (itemName ++ "Count", .uShort list.length) ::
    list.enum.map (fun iv => (itemName ++ toString iv.1, FieldVal.uShort iv.2))

/-- The per-record loop of `recordList` (table.js): concatenate the
callback's field lists in order, threading the record index. -/
def recordFields {α : Type} (cb : α → Nat → List (String × FieldVal)) :
    List α → Nat → List (String × FieldVal)
  | [], _ => []
  | r :: rest, i => cb r i ++ recordFields cb rest (i + 1)

/-- Embeds `recordList(itemName, records, cb)` (table.js): a count field
followed by the concatenation of the callback's field arrays (inline, no
per-element offset). -/
def recordList {α : Type} (itemName : String) (records : List α)
    (cb : α → Nat → List (String × FieldVal)) : List (String × FieldVal) :=
  (itemName ++ "Count", .uShort records.length) :: recordFields cb records 0

/-- The per-record loop of `recordList` for a callback that can throw
(`check.assert` in the `ScriptList` constructor), failing fast at the first
error. -/
def recordFieldsE {α : Type} (cb : α → Nat → Except String (List (String × FieldVal))) :
    List α → Nat → Except String (List (String × FieldVal))
  | [], _ => .ok []
  | r :: rest, i =>
    match cb r i with
    | .error e => .error e
    | .ok fs =>
      match recordFieldsE cb rest (i + 1) with
      | .error e => .error e
      | .ok rest2 => .ok (fs ++ rest2)

/-- The langSys table built inside the `ScriptList` constructor (table.js):
`lookupOrder` 0, `reqFeatureIndex`, then the feature-index list. -/
def langSysFields (ls : LangSys) : List (String × FieldVal) :=
  [("lookupOrder", .uShort 0), ("reqFeatureIndex", .uShort ls.reqFeatureIndex)]
    ++ ushortList "featureIndex" ls.featureIndexes

/-- The script table built inside the `ScriptList` constructor (table.js):
a `defaultLangSys` subtable followed by the named langSys records. -/
def scriptTableOf (sr : ScriptRecord) (dls : LangSys) : Table :=
  Table.mk "scriptTable"
    (("defaultLangSys", FieldVal.subTable (Table.mk "defaultLangSys" (langSysFields dls))) ::
      recordList "langSys" sr.langSysRecords (fun r i =>
        [("langSysTag" ++ toString i, .tagV r.1),
         ("langSys" ++ toString i, .subTable (Table.mk "langSys" (langSysFields r.2)))]))

/-- The error message thrown by the `ScriptList` constructor for a script
without a default language system. -/
def missingLangSysMsg (tag : String) : String :=
  "Unable to write GSUB: script " ++ tag ++ " has no default language system."

/-- The `scriptRecord` callback of the `ScriptList` constructor (table.js):
asserts `!!script.defaultLangSys`, then returns the script tag field and the
script subtable field. -/
def scriptRecordFields (sr : ScriptRecord) (i : Nat) :
    Except String (List (String × FieldVal)) :=
  match sr.defaultLangSys with
  | none => .error (missingLangSysMsg sr.tag)
  | some dls => .ok
      [("scriptTag" ++ toString i, .tagV sr.tag),
       ("script" ++ toString i, .subTable (scriptTableOf sr dls))]

/-- Embeds the `ScriptList` constructor (table.js): a `recordList` over the
script records whose callback throws `missingLangSysMsg` for any script
record without a default language system. -/
def makeScriptList (scriptListTable : List ScriptRecord) : Except String Table :=
  match recordFieldsE scriptRecordFields scriptListTable 0 with
  | .error e => .error e
  | .ok fs => .ok (Table.mk "scriptListTable"
      (("scriptRecordCount", FieldVal.uShort scriptListTable.length) :: fs))

theorem lastVal_nil {β : Type} (k : String) : lastVal ([] : List (String × β)) k = none := rfl

theorem lastVal_cons {β : Type} (f : String × β) (rest : List (String × β)) (k : String) :
    lastVal (f :: rest) k = (lastVal rest k).or (if f.1 == k then some f.2 else none) := by
  unfold lastVal
  rw [List.reverse_cons, List.find?_append]
  cases h : List.find? (fun kv => kv.1 == k) rest.reverse with
  | none => cases hf : (f.1 == k) <;> simp [Option.or, hf]
  | some w => simp [Option.or]

theorem seedFields_apply {α : Type} (fields : List (String × α))
    (p : String → Option (PropVal α)) (k : String) :
    (fields.foldl (fun p f => setProp p f.1 (.val f.2)) p) k =
      match lastVal fields k with
      | some v => some (.val v)
      | none => p k := by
  induction fields generalizing p with
  | nil => simp [lastVal]
  | cons f rest ih =>
    rw [List.foldl_cons, ih, lastVal_cons]
    cases h : lastVal rest k with
    | some v => simp [Option.or]
    | none =>
      cases hf : (f.1 == k) with
      | true =>
        have hk : k = f.1 := (beq_iff_eq.mp hf).symm
        simp [Option.or, setProp, hk]
      | false =>
        have hk : ¬ k = f.1 := fun hk => by simp [hk] at hf
        simp [Option.or, setProp, hk]

theorem overlay_apply {α : Type} (options : List (String × PropVal α))
    (p : String → Option (PropVal α)) (k : String) :
    (options.foldl (fun p kv => if (p kv.1).isSome then setProp p kv.1 kv.2 else p) p) k =
      if (p k).isSome ∧ (lastVal options k).isSome then lastVal options k else p k := by
  induction options generalizing p with
  | nil => simp [lastVal]
  | cons kv rest ih =>
    obtain ⟨k0, v0⟩ := kv
    rw [List.foldl_cons, ih, lastVal_cons]
    by_cases hk : k = k0
    · subst hk
      cases hp : p k with
      | none =>
        cases h : lastVal rest k with
        | none => simp [hp, h, Option.or]
        | some w => simp [hp, h, Option.or]
      | some w0 =>
        cases h : lastVal rest k with
        | none => simp [hp, h, setProp, Option.or]
        | some w => simp [hp, h, setProp, Option.or]
    · have hne : (k0 == k) = false := by
        cases hb : (k0 == k) with
        | true => exact absurd (beq_iff_eq.mp hb).symm hk
        | false => rfl
      have hpk : (if (p k0).isSome then setProp p k0 v0 else p) k = p k := by
        by_cases hs : (p k0).isSome <;> simp [hs, setProp, hk]
      rw [hpk]
      cases h : lastVal rest k with
      | none => simp [h, hne, Option.or]
      | some w => simp [h, Option.or]

theorem recordFieldsE_script_error (scripts : List ScriptRecord) (i : Nat) (m : String) :
    recordFieldsE scriptRecordFields scripts i = .error m →
      ∃ sr ∈ scripts, sr.defaultLangSys = none ∧ m = missingLangSysMsg sr.tag := by
  induction scripts generalizing i with
  | nil => intro h; simp [recordFieldsE] at h
  | cons sr rest ih =>
    intro h
    cases hd : sr.defaultLangSys with
    | none =>
      refine ⟨sr, List.mem_cons_self sr rest, hd, ?_⟩
      simp [recordFieldsE, scriptRecordFields, hd] at h
      exact h.symm
    | some dls =>
      simp only [recordFieldsE, scriptRecordFields, hd] at h
      cases hr : recordFieldsE scriptRecordFields rest (i + 1) with
      | error m2 =>
        rw [hr] at h
        simp only [Except.error.injEq] at h
        obtain ⟨sr2, hmem, hnone, hmsg⟩ := ih (i + 1) (h ▸ hr)
        exact ⟨sr2, List.mem_cons_of_mem sr hmem, hnone, hmsg⟩
      | ok fs =>
        rw [hr] at h
        simp at h

theorem recordFieldsE_script_ok (scripts : List ScriptRecord) (i : Nat) :
    (∃ fs, recordFieldsE scriptRecordFields scripts i = .ok fs) ↔
      ∀ sr ∈ scripts, sr.defaultLangSys.isSome := by
  induction scripts generalizing i with
  | nil => simp [recordFieldsE]
  | cons sr rest ih =>
    constructor
    · rintro ⟨fs, h⟩ sr2 hmem
      cases hd : sr.defaultLangSys with
      | none => simp [recordFieldsE, scriptRecordFields, hd] at h
      | some dls =>
        rcases List.mem_cons.mp hmem with heq | hmem2
        · subst heq; simp [hd]
        · simp only [recordFieldsE, scriptRecordFields, hd] at h
          cases hr : recordFieldsE scriptRecordFields rest (i + 1) with
          | error m2 => rw [hr] at h; simp at h
          | ok fs2 =>
            exact ((ih (i + 1)).mp ⟨fs2, hr⟩) sr2 hmem2
    · intro hall
      have hd : sr.defaultLangSys.isSome := hall sr (List.mem_cons_self sr rest)
      cases hds : sr.defaultLangSys with
      | none => rw [hds] at hd; simp at hd
      | some dls =>
        obtain ⟨fs2, hr⟩ :=
          (ih (i + 1)).mpr (fun sr2 hmem2 => hall sr2 (List.mem_cons_of_mem sr hmem2))
        refine ⟨("scriptTag" ++ toString i, .tagV sr.tag) ::
          ("script" ++ toString i, .subTable (scriptTableOf sr dls)) :: fs2, ?_⟩
        simp [recordFieldsE, scriptRecordFields, hds, hr]

/-- C2: For every constructed Table t, the length of the byte array returned
by t.encode() equals the number returned by t.sizeOf(). -/
theorem encode_length_eq_sizeOf (t : Table) : (encodeTable t).length = sizeOfTable t :=
  encodeTable_length_aux t

/-- C9: The `Table` constructor seeds one named property per field with the
field's value (with `tableName` and `fields` layered on top), and the option
overlay replaces only the values of already-present same-named properties,
silently ignoring every other option key. -/
theorem table_constructor_contract {α : Type} (tableName : String)
    (fields : List (String × α)) (options : List (String × PropVal α)) (k : String) :
    (tableConstructorProps tableName fields [] k =
      if k = "fields" then some (.fieldList fields)
      else if k = "tableName" then some (.nameStr tableName)
      else (lastVal fields k).map PropVal.val) ∧
    (tableConstructorProps tableName fields options k =
      if (tableConstructorProps tableName fields [] k).isSome ∧ (lastVal options k).isSome
      then lastVal options k
      else tableConstructorProps tableName fields [] k) := by
  constructor
  · show setProp (setProp _ "tableName" _) "fields" _ k = _
    by_cases hf : k = "fields"
    · simp [setProp, hf]
    · by_cases hn : k = "tableName"
      · simp [setProp, hf, hn]
      · rw [show (setProp (setProp (fields.foldl (fun p f => setProp p f.1 (.val f.2))
            (fun _ => none)) "tableName" (.nameStr tableName)) "fields"
            (.fieldList fields)) k =
            (fields.foldl (fun p f => setProp p f.1 (.val f.2)) (fun _ => none)) k from by
              simp [setProp, hf, hn]]
        rw [seedFields_apply]
        cases h : lastVal fields k <;> simp [hf, hn]
  · exact overlay_apply options _ k

/-- C8: Constructing a ScriptList succeeds exactly when every script record
carries a default language system, and a missing one raises the
`MissingRequiredField` fault whose message names that script's tag. -/
theorem scriptList_requires_defaultLangSys (scripts : List ScriptRecord) :
    ((∃ tbl, makeScriptList scripts = .ok tbl) ↔
      ∀ sr ∈ scripts, sr.defaultLangSys.isSome) ∧
    (∀ m, makeScriptList scripts = .error m →
      ∃ sr ∈ scripts, sr.defaultLangSys = none ∧ m = missingLangSysMsg sr.tag) := by
  constructor
  · constructor
    · rintro ⟨tbl, h⟩
      unfold makeScriptList at h
      cases hr : recordFieldsE scriptRecordFields scripts 0 with
      | error e => rw [hr] at h; simp at h
      | ok fs => exact (recordFieldsE_script_ok scripts 0).mp ⟨fs, hr⟩
    · intro hall
      obtain ⟨fs, hr⟩ := (recordFieldsE_script_ok scripts 0).mpr hall
      refine ⟨Table.mk "scriptListTable"
        (("scriptRecordCount", FieldVal.uShort scripts.length) :: fs), ?_⟩
      simp [makeScriptList, hr]
  · intro m h
    unfold makeScriptList at h
    cases hr : recordFieldsE scriptRecordFields scripts 0 with
    | error e =>
      rw [hr] at h
      simp only [Except.error.injEq] at h
      exact recordFieldsE_script_error scripts 0 m (h ▸ hr)
    | ok fs => rw [hr] at h; simp at h

/-- Witness for C8: a one-script list whose script lacks a default language
system fails with the message naming its tag. -/
theorem scriptList_requires_defaultLangSys_witness :
    ∃ sr ∈ [ScriptRecord.mk "latn" none []], sr.defaultLangSys = none ∧
      missingLangSysMsg "latn" = missingLangSysMsg sr.tag :=
  (scriptList_requires_defaultLangSys [⟨"latn", none, []⟩]).2
    (missingLangSysMsg "latn") (by rfl)

/-- A GSUB tree wiring feature `ss01` (default script and language) to a
type-1 lookup holding one format-2 single subtable covering glyphs 5 and 6
with substitutes 9 and 10. -/
def demoSingle2Tree : GsubTable :=
  { version := 1
  , scripts := [⟨"DFLT", some ⟨0, 0xffff, [0]⟩, []⟩]
  , features := [⟨"ss01", 0, [0]⟩]
  , lookups := [⟨1, 0, [.single2 (.format1 [5, 6]) [9, 10]]⟩] }

/-- A GSUB tree wiring feature `ss01` to a type-1 lookup holding one
format-1 (delta 4) single subtable covering glyphs 5 and 6. -/
def demoSingle1Tree : GsubTable :=
  { version := 1
  , scripts := [⟨"DFLT", some ⟨0, 0xffff, [0]⟩, []⟩]
  , features := [⟨"ss01", 0, [0]⟩]
  , lookups := [⟨1, 0, [.single1 (.format1 [5, 6]) 4]⟩] }

/-- A GSUB tree wiring feature `stch` to a type-2 lookup holding one
multiple subtable covering glyphs 5 and 6 with sequences `[9,10]` and
`[11,12]`. -/
def demoMultipleTree : GsubTable :=
  { version := 1
  , scripts := [⟨"DFLT", some ⟨0, 0xffff, [0]⟩, []⟩]
  , features := [⟨"stch", 0, [0]⟩]
  , lookups := [⟨2, 0, [.multiple (.format1 [5, 6]) [[9, 10], [11, 12]]]⟩] }

/-- A GSUB tree wiring feature `salt` to a type-3 lookup holding one
alternate subtable covering glyphs 5 and 6 with alternate sets `[9]` and
`[10]`. -/
def demoAlternateTree : GsubTable :=
  { version := 1
  , scripts := [⟨"DFLT", some ⟨0, 0xffff, [0]⟩, []⟩]
  , features := [⟨"salt", 0, [0]⟩]
  , lookups := [⟨3, 0, [.alternate (.format1 [5, 6]) [[9], [10]]]⟩] }

/-- C1 (failing inputs): the `get*` projections do not pair `glyphs[i]` with
the parallel entry at index `i` — the source computes the pair once, in the
for-loop initializer, so every covered glyph beyond the first repeats the
first pair.  On two-glyph subtables `getSingle` (both formats),
`getMultiple` and `getAlternates` return the first pair twice instead of the
two index-paired entries the claim requires. -/
theorem get_projections_duplicate_first_pair :
    getSingle demoSingle2Tree "ss01" "DFLT" "dflt" =
      [⟨.one 5, .one 9⟩, ⟨.one 5, .one 9⟩] ∧
    getSingle demoSingle2Tree "ss01" "DFLT" "dflt" ≠
      [⟨.one 5, .one 9⟩, ⟨.one 6, .one 10⟩] ∧
    getSingle demoSingle1Tree "ss01" "DFLT" "dflt" =
      [⟨.one 5, .one 9⟩, ⟨.one 5, .one 9⟩] ∧
    getSingle demoSingle1Tree "ss01" "DFLT" "dflt" ≠
      [⟨.one 5, .one 9⟩, ⟨.one 6, .one 10⟩] ∧
    getMultiple demoMultipleTree "stch" "DFLT" "dflt" =
      [⟨.one 5, .seq [9, 10]⟩, ⟨.one 5, .seq [9, 10]⟩] ∧
    getMultiple demoMultipleTree "stch" "DFLT" "dflt" ≠
      [⟨.one 5, .seq [9, 10]⟩, ⟨.one 6, .seq [11, 12]⟩] ∧
    getAlternates demoAlternateTree "salt" "DFLT" "dflt" =
      [⟨.one 5, .seq [9]⟩, ⟨.one 5, .seq [9]⟩] ∧
    getAlternates demoAlternateTree "salt" "DFLT" "dflt" ≠
      [⟨.one 5, .seq [9]⟩, ⟨.one 6, .seq [10]⟩] := by
  refine ⟨by rfl, by decide, by rfl, by decide, by rfl, by decide, by rfl, by decide⟩

/-- Counterexample for C4: `add("stch", {sub:5, by:[9,10]})` does not route
to `addMultiple` — it falls through the dispatch switch and leaves the GSUB
tree unchanged, while `addMultiple` on the same input produces a different
tree. -/
theorem add_stch_unrouted_counterexample :
    add createDefaultTable "stch" ⟨.one 5, .seq [9, 10]⟩ "DFLT" "dflt" =
      some createDefaultTable ∧
    addMultiple createDefaultTable "stch" 5 [9, 10] "DFLT" "dflt" ≠
      some createDefaultTable := by
  exact ⟨by rfl, by decide⟩

/-- C4 (amended): `getFeature("stch", …)` returns the lookup-type-2 multiple
substitutions (the result of `getMultiple`), but `add("stch", …)` is not
routed anywhere: it returns undefined and leaves the GSUB tree unchanged
(the dispatch switch in `add` has no `stch` case). -/
theorem stch_get_routed_add_unrouted (t : GsubTable) (script language : String)
    (rule : FeatEntry) :
    getFeature t "stch" script language = some (getMultiple t "stch" script language) ∧
    add t "stch" rule script language = some t := by
  exact ⟨by rfl, by rfl⟩

/-- C10: a feature tag that does not match `/ss\d\d/` and is none of the
dispatch-table tags gets `undefined` from `getFeature`, and `add` returns
undefined leaving the GSUB tree unmodified. -/
theorem unknown_feature_yields_nothing (t : GsubTable) (feature script language : String)
    (rule : FeatEntry)
    (hss : ssRegexTest feature = false)
    (h1 : feature ≠ "aalt") (h2 : feature ≠ "salt") (h3 : feature ≠ "dlig")
    (h4 : feature ≠ "liga") (h5 : feature ≠ "rlig") (h6 : feature ≠ "ccmp")
    (h7 : feature ≠ "stch") :
    getFeature t feature script language = none ∧
    add t feature rule script language = some t := by
  have b1 : (feature == "aalt") = false := beq_eq_false_iff_ne.mpr h1
  have b2 : (feature == "salt") = false := beq_eq_false_iff_ne.mpr h2
  have b3 : (feature == "dlig") = false := beq_eq_false_iff_ne.mpr h3
  have b4 : (feature == "liga") = false := beq_eq_false_iff_ne.mpr h4
  have b5 : (feature == "rlig") = false := beq_eq_false_iff_ne.mpr h5
  have b6 : (feature == "ccmp") = false := beq_eq_false_iff_ne.mpr h6
  have b7 : (feature == "stch") = false := beq_eq_false_iff_ne.mpr h7
  constructor
  · simp [getFeature, hss, b1, b2, b3, b4, b5, b6, b7]
  · simp [add, hss, b1, b2, b3, b4, b5, b6]

/-- Witness for C10 at feature tag `kern`. -/
theorem unknown_feature_yields_nothing_witness :
    getFeature createDefaultTable "kern" "DFLT" "dflt" = none ∧
    add createDefaultTable "kern" ⟨.one 1, .one 2⟩ "DFLT" "dflt" = some createDefaultTable :=
  unknown_feature_yields_nothing createDefaultTable "kern" "DFLT" "dflt" ⟨.one 1, .one 2⟩
    (by rfl) (by decide) (by decide) (by decide) (by decide) (by decide) (by decide)
    (by decide)

theorem set_concat_length {α : Type} (l : List α) (x y : α) :
    (l ++ [x]).set l.length y = l ++ [y] := by
  induction l with
  | nil => rfl
  | cons a tl ih => simp [List.set, ih]

theorem find?_set_of_findIdx? {α : Type} (p : α → Bool) :
    ∀ (l : List α) (i : Nat) (y : α), l.findIdx? p = some i → p y = true →
      (l.set i y).find? p = some y := by
  intro l
  induction l with
  | nil => intro i y h _; simp [List.findIdx?] at h
  | cons a tl ih =>
    intro i y h hy
    rw [List.findIdx?_cons] at h
    cases hp : p a with
    | true =>
      rw [hp] at h
      simp at h
      rw [← h]
      simp [List.find?, hy]
    | false =>
      rw [hp] at h
      simp at h
      obtain ⟨j, hj, hij⟩ := h
      rw [← hij]
      simp only [List.set]
      simp [List.find?, hp, ih j y hj hy]

theorem get?_of_findIdx? {α : Type} (p : α → Bool) :
    ∀ (l : List α) (i : Nat), l.findIdx? p = some i →
      ∃ x, l.get? i = some x ∧ p x = true := by
  intro l
  induction l with
  | nil => intro i h; simp [List.findIdx?] at h
  | cons a tl ih =>
    intro i h
    rw [List.findIdx?_cons] at h
    cases hp : p a with
    | true =>
      rw [hp] at h; simp at h
      exact ⟨a, by rw [← h]; simp, hp⟩
    | false =>
      rw [hp] at h; simp at h
      obtain ⟨j, hj, hij⟩ := h
      obtain ⟨x, hx, hpx⟩ := ih j hj
      exact ⟨x, by rw [← hij]; simpa using hx, hpx⟩

/-- A script record with feature index `fi` appended to its default language
system `ls` — the shape `ensureFeature` leaves behind. -/
def wireFeature (sr : ScriptRecord) (ls : LangSys) (fi : Nat) : ScriptRecord :=
  { sr with defaultLangSys := some ({ ls with featureIndexes := ls.featureIndexes ++ [fi] }) }

/-- C3: on a tree whose resolved default script carries a default language
system wired to valid feature indexes but not yet to `ss01`, `addSingle`
followed by `getSingle` on `ss01` (default script and language) returns
exactly `[{sub:5, by:9}]`. -/
theorem addSingle_then_getSingle_ss01 (t : GsubTable) (si : Nat) (sr : ScriptRecord)
    (ls : LangSys)
    (hsi : t.scripts.findIdx? (fun s => s.tag == "DFLT") = some si)
    (hsr : t.scripts.get? si = some sr)
    (hdls : sr.defaultLangSys = some ls)
    (hnf : findFeatureIndex t ls "ss01" = none)
    (hwf : ∀ i ∈ ls.featureIndexes, i < t.features.length) :
    ∃ t2, addSingle t "ss01" 5 9 "DFLT" "dflt" = some t2 ∧
      getSingle t2 "ss01" "DFLT" "dflt" = [⟨.one 5, .one 9⟩] := by
  have hsr2 : t.scripts[si]? = some sr := by rwa [List.get?_eq_getElem?] at hsr
  have htag : (sr.tag == "DFLT") = true := by
    obtain ⟨x, hx, hpx⟩ := get?_of_findIdx? _ t.scripts si hsi
    rw [hsr] at hx
    injection hx with hx
    rw [hx]
    exact hpx
  refine ⟨{ version := t.version
            scripts := t.scripts.set si (wireFeature sr ls t.features.length)
            features := t.features ++ [⟨"ss01", 0, [t.lookups.length]⟩]
            lookups := t.lookups ++ [⟨1, 0, [.single2 (.format1 [5]) [9]]⟩] }, ?_, ?_⟩
  · have e1 : ensureScript t "DFLT" = (t, si) := by simp [ensureScript, hsi]
    have e2 : ensureLangSys t si "DFLT" "dflt" = (t, ls) := by
      simp [ensureLangSys, hsr2, langSysOf, hdls]
    have e3 : ensureFeature t si "DFLT" "dflt" "ss01" ls =
        ({ t with
            features := t.features ++ [⟨"ss01", 0, []⟩]
            scripts := t.scripts.set si (wireFeature sr ls t.features.length) },
         t.features.length) := by
      simp [ensureFeature, hnf, hsr2, setLangSys, wireFeature]
    have e4 : ensureLookup
        ({ t with
            features := t.features ++ [⟨"ss01", 0, []⟩]
            scripts := t.scripts.set si (wireFeature sr ls t.features.length) })
        t.features.length 1 =
        ({ version := t.version
           scripts := t.scripts.set si (wireFeature sr ls t.features.length)
           features := t.features ++ [⟨"ss01", 0, [t.lookups.length]⟩]
           lookups := t.lookups ++ [⟨1, 0, []⟩] }, t.lookups.length) := by
      simp [ensureLookup, List.getElem?_concat_length, set_concat_length]
    have ecr : getLookupTablesCreate t "DFLT" "dflt" "ss01" 1 =
        ({ version := t.version
           scripts := t.scripts.set si (wireFeature sr ls t.features.length)
           features := t.features ++ [⟨"ss01", 0, [t.lookups.length]⟩]
           lookups := t.lookups ++ [⟨1, 0, []⟩] }, t.lookups.length) := by
      simp only [getLookupTablesCreate, e1, e2, e3, e4]
    simp only [addSingle, ecr]
    simp [getSubstFormatIdx, List.findIdx?, binSearch, setLookupSubtables,
      List.getElem?_concat_length, set_concat_length, List.insertIdx]
  · have hfind : (t.scripts.set si (wireFeature sr ls t.features.length)).find?
        (fun s => s.tag == "DFLT") = some (wireFeature sr ls t.features.length) :=
      find?_set_of_findIdx? _ t.scripts si _ hsi htag
    have hnoneE : List.find?
        (fun i => ((t.features ++ [⟨"ss01", 0, [t.lookups.length]⟩] : List FeatureRecord)[i]?).any
          (fun fr => fr.tag == "ss01")) ls.featureIndexes = none := by
      rw [List.find?_eq_none]
      intro i hi
      rw [List.getElem?_append_left (hwf i hi)]
      have hall := List.find?_eq_none.mp (by simpa [findFeatureIndex] using hnf) i hi
      simpa using hall
    simp only [getSingle, getLookupTables, getLookupIdxs, findLangSys, hfind, langSysOf,
      findFeatureIndex]
    simp [wireFeature, List.find?_append, hnoneE, List.getElem?_concat_length,
      getSingleSubtable, expandCoverage]

/-- Witness for C3 at the default GSUB table. -/
theorem addSingle_then_getSingle_ss01_witness :
    ∃ t2, addSingle createDefaultTable "ss01" 5 9 "DFLT" "dflt" = some t2 ∧
      getSingle t2 "ss01" "DFLT" "dflt" = [⟨.one 5, .one 9⟩] :=
  addSingle_then_getSingle_ss01 createDefaultTable 0 ⟨"DFLT", some ⟨0, 0xffff, []⟩, []⟩
    ⟨0, 0xffff, []⟩ (by rfl) (by rfl) (by rfl) (by rfl) (by simp)

/-- Is a subtable a format-1 (delta) single-substitution subtable? -/
def isSingle1 : Subtable → Bool
  | .single1 _ _ => true
  | _ => false

/-- The format-1 single-substitution subtables of every lookup, in place. -/
def single1List (t : GsubTable) : List (List Subtable) :=
  t.lookups.map (fun lt => lt.subtables.filter isSingle1)

/-- The mutation invariant of one subtable: a format-1 coverage glyph list
is strictly ascending (hence duplicate-free) and its parallel array has the
same length. -/
def WfSub : Subtable → Prop
  | .single2 (.format1 g) substitute => List.Sorted (· < ·) g ∧ substitute.length = g.length
  | .multiple (.format1 g) sequences => List.Sorted (· < ·) g ∧ sequences.length = g.length
  | .alternate (.format1 g) alternateSets =>
      List.Sorted (· < ·) g ∧ alternateSets.length = g.length
  | .ligature (.format1 g) ligatureSets =>
      List.Sorted (· < ·) g ∧ ligatureSets.length = g.length
  | _ => True

instance decWfSub : (st : Subtable) → Decidable (WfSub st)
  | .single1 _ _ => isTrue trivial
  | .single2 (.format1 _) _ => inferInstanceAs (Decidable (_ ∧ _))
  | .single2 (.format2 _) _ => isTrue trivial
  | .multiple (.format1 _) _ => inferInstanceAs (Decidable (_ ∧ _))
  | .multiple (.format2 _) _ => isTrue trivial
  | .alternate (.format1 _) _ => inferInstanceAs (Decidable (_ ∧ _))
  | .alternate (.format2 _) _ => isTrue trivial
  | .ligature (.format1 _) _ => inferInstanceAs (Decidable (_ ∧ _))
  | .ligature (.format2 _) _ => isTrue trivial

/-- The mutation invariant of a whole GSUB tree: every subtable of every
lookup table satisfies `WfSub`. -/
def WfTree (t : GsubTable) : Prop :=
  ∀ lt ∈ t.lookups, ∀ st ∈ lt.subtables, WfSub st

theorem set_of_get?_self {α : Type} :
    ∀ (l : List α) (i : Nat) (x : α), l[i]? = some x → l.set i x = l := by
  intro l
  induction l with
  | nil => intro i x h; simp at h
  | cons a tl ih =>
    intro i x h
    cases i with
    | zero => simp at h; simp [h]
    | succ j => simp at h; simp [ih j x h]

theorem filter_set_same {α : Type} (p : α → Bool) :
    ∀ (l : List α) (i : Nat) (a b : α), l[i]? = some a → p a = false → p b = false →
      (l.set i b).filter p = l.filter p := by
  intro l
  induction l with
  | nil => intro i a b h _ _; simp at h
  | cons c tl ih =>
    intro i a b h hpa hpb
    cases i with
    | zero =>
      simp at h
      subst h
      simp [List.filter, hpa, hpb]
    | succ j =>
      simp at h
      simp [List.filter, ih j a b h hpa hpb]

theorem binSearch_neg_iff (g : List Nat) (x : Nat) : binSearch g x < 0 ↔ x ∉ g := by
  unfold binSearch
  by_cases h : x ∈ g
  · simp [h]
  · simp [h]
    try omega

theorem binSearch_neg_toNat (g : List Nat) (x : Nat) (h : x ∉ g) :
    (-1 - binSearch g x).toNat = (g.filter (fun a => a < x)).length := by
  unfold binSearch
  simp [h]
  try omega

theorem binSearch_nonneg_toNat (g : List Nat) (x : Nat) (h : x ∈ g) :
    binSearch g x = g.indexOf x := by
  unfold binSearch
  simp [h]

theorem pairwise_insertIdx_filter_lt (x : Nat) :
    ∀ (g : List Nat), List.Sorted (· < ·) g → x ∉ g →
      List.Sorted (· < ·) (g.insertIdx ((g.filter (fun a => a < x)).length) x) := by
  intro g
  induction g with
  | nil => intro _ _; simp [List.insertIdx]
  | cons a tl ih =>
    intro hs hx
    rw [List.sorted_cons] at hs
    obtain ⟨ha, htl⟩ := hs
    by_cases hax : a < x
    · have hfil : ((a :: tl).filter (fun b => b < x)).length =
          ((tl.filter (fun b => b < x)).length) + 1 := by
        simp [List.filter_cons, hax]
      rw [hfil, List.insertIdx_succ_cons]
      rw [List.sorted_cons]
      refine ⟨?_, ih htl (fun h => hx (List.mem_cons_of_mem a h))⟩
      intro b hb
      have hle : (tl.filter (fun b => b < x)).length ≤ tl.length :=
        le_trans (List.length_filter_le _ _) (le_refl _)
      rcases (List.mem_insertIdx hle).mp hb with hbx | hbtl
      · rw [hbx]; exact hax
      · exact ha b hbtl
    · have hxa : x < a := by
        rcases Nat.lt_or_ge x a with h1 | h1
        · exact h1
        · exact absurd (Nat.lt_of_le_of_ne h1 (fun h => hx (h ▸ List.mem_cons_self a tl)))
            hax
      have hfil : ((a :: tl).filter (fun b => b < x)).length = 0 := by
        rw [List.length_eq_zero]
        rw [List.filter_eq_nil_iff]
        intro b hb
        rcases List.mem_cons.mp hb with rfl | hbtl
        · simpa using hax
        · simp only [decide_eq_true_eq]
          exact fun hbx => absurd (lt_trans hxa (ha b hbtl)) (not_lt_of_gt hbx)
      rw [hfil]
      rw [show List.insertIdx 0 x (a :: tl) = x :: a :: tl from rfl]
      rw [List.sorted_cons]
      constructor
      · intro b hb
        rcases List.mem_cons.mp hb with rfl | hbtl
        · exact hxa
        · exact lt_trans hxa (ha b hbtl)
      · rw [List.sorted_cons]
        exact ⟨ha, htl⟩

theorem ensureScript_lookups (t : GsubTable) (s : String) :
    (ensureScript t s).1.lookups = t.lookups := by
  unfold ensureScript; split <;> rfl

theorem ensureLangSys_lookups (t : GsubTable) (si : Nat) (s l : String) :
    (ensureLangSys t si s l).1.lookups = t.lookups := by
  unfold ensureLangSys; dsimp only; split <;> rfl

theorem ensureFeature_lookups (t : GsubTable) (si : Nat) (s l f : String) (ls : LangSys) :
    (ensureFeature t si s l f ls).1.lookups = t.lookups := by
  unfold ensureFeature; split <;> rfl

theorem ensureLookup_lookups (t : GsubTable) (fi ty : Nat) :
    (ensureLookup t fi ty).1.lookups = t.lookups ∨
      (ensureLookup t fi ty).1.lookups = t.lookups ++ [⟨ty, 0, []⟩] := by
  unfold ensureLookup; dsimp only; split
  · left; rfl
  · right; rfl

/-- `getLookupTablesCreate` leaves the lookup list unchanged or appends one
fresh empty lookup of the requested type. -/
theorem create_lookups (t : GsubTable) (sc lg f : String) (ty : Nat) :
    (getLookupTablesCreate t sc lg f ty).1.lookups = t.lookups ∨
      (getLookupTablesCreate t sc lg f ty).1.lookups = t.lookups ++ [⟨ty, 0, []⟩] := by
  unfold getLookupTablesCreate
  have h1 := ensureScript_lookups t sc
  have h2 := ensureLangSys_lookups (ensureScript t sc).1 (ensureScript t sc).2 sc lg
  have h3 := ensureFeature_lookups
    (ensureLangSys (ensureScript t sc).1 (ensureScript t sc).2 sc lg).1
    (ensureScript t sc).2 sc lg f
    (ensureLangSys (ensureScript t sc).1 (ensureScript t sc).2 sc lg).2
  have h4 := ensureLookup_lookups
    (ensureFeature (ensureLangSys (ensureScript t sc).1 (ensureScript t sc).2 sc lg).1
      (ensureScript t sc).2 sc lg f
      (ensureLangSys (ensureScript t sc).1 (ensureScript t sc).2 sc lg).2).1
    (ensureFeature (ensureLangSys (ensureScript t sc).1 (ensureScript t sc).2 sc lg).1
      (ensureScript t sc).2 sc lg f
      (ensureLangSys (ensureScript t sc).1 (ensureScript t sc).2 sc lg).2).2 ty
  rw [h3, h2, h1] at h4
  exact h4

/-- Replacing a lookup's subtables with a list of the same format-1 single
content leaves the per-lookup format-1 single lists unchanged. -/
theorem single1List_setLookup (t : GsubTable) (li : Nat) (lt : LookupTable)
    (sts : List Subtable) (hlt : t.lookups.get? li = some lt)
    (hf : sts.filter isSingle1 = lt.subtables.filter isSingle1) :
    single1List (setLookupSubtables t li sts) = single1List t := by
  unfold setLookupSubtables
  rw [hlt]
  unfold single1List
  simp only [List.map_set]
  rw [hf]
  apply set_of_get?_self
  rw [List.getElem?_map]
  rw [List.get?_eq_getElem?] at hlt
  rw [hlt]
  rfl

/-- The subtable found or appended by `getSubstFormatIdx`, when replaced by
another non-format-1-single subtable, leaves the format-1 single filter of
the original subtable list unchanged. -/
theorem filter_single1_set_subst (sts0 : List Subtable) (fmt : Nat) (dflt old new : Subtable)
    (ho : isSingle1 old = false) (hn : isSingle1 new = false)
    (heq : (getSubstFormatIdx sts0 fmt dflt).1.get? (getSubstFormatIdx sts0 fmt dflt).2 =
      some old) :
    ((getSubstFormatIdx sts0 fmt dflt).1.set (getSubstFormatIdx sts0 fmt dflt).2 new).filter
      isSingle1 = sts0.filter isSingle1 := by
  unfold getSubstFormatIdx at *
  cases hfi : sts0.findIdx? (fun st => st.substFormat == fmt) with
  | some i =>
    rw [hfi] at heq
    simp only [hfi]
    rw [List.get?_eq_getElem?] at heq
    exact filter_set_same _ sts0 i old new heq ho hn
  | none =>
    simp only [hfi]
    rw [set_concat_length, List.filter_append]
    simp [List.filter, hn]

theorem wfTree_setLookup (t : GsubTable) (li : Nat) (sts : List Subtable)
    (h : WfTree t) (hsts : ∀ st ∈ sts, WfSub st) :
    WfTree (setLookupSubtables t li sts) := by
  unfold setLookupSubtables
  cases hlt : t.lookups.get? li with
  | none => exact h
  | some lt =>
    intro lt2 hmem st hst
    rcases List.mem_or_eq_of_mem_set hmem with hmem2 | heq2
    · exact h lt2 hmem2 st hst
    · subst heq2
      exact hsts st (by simpa using hst)

theorem wfTree_create (t : GsubTable) (sc lg f : String) (ty : Nat) (h : WfTree t) :
    WfTree (getLookupTablesCreate t sc lg f ty).1 := by
  rcases create_lookups t sc lg f ty with hc | hc
  · intro lt hmem st hst
    rw [hc] at hmem
    exact h lt hmem st hst
  · intro lt hmem st hst
    rw [hc] at hmem
    rcases List.mem_append.mp hmem with h1 | h1
    · exact h lt h1 st hst
    · simp at h1
      subst h1
      simp at hst

/-- The strict-ascent and parallel-length invariant survives a sorted
insertion at the `binSearch` insertion point. -/
theorem wf_insert {α : Type} (glyphs : List Nat) (arr : List α) (s : Nat) (z v : α)
    (h1 : List.Sorted (· < ·) glyphs) (h2 : arr.length = glyphs.length)
    (hs : s ∉ glyphs) :
    List.Sorted (· < ·)
      (glyphs.insertIdx ((glyphs.filter (fun a => a < s)).length) s) ∧
    ((arr.insertIdx ((glyphs.filter (fun a => a < s)).length) z).set
        ((glyphs.filter (fun a => a < s)).length) v).length =
      (glyphs.insertIdx ((glyphs.filter (fun a => a < s)).length) s).length := by
  have hp : (glyphs.filter (fun a => a < s)).length ≤ glyphs.length :=
    List.length_filter_le _ _
  constructor
  · exact pairwise_insertIdx_filter_lt s glyphs h1 hs
  · rw [List.length_set, List.length_insertIdx _ _ (by omega),
      List.length_insertIdx _ _ hp, h2]

theorem isSingle1_single2 (c : Coverage) (s : List Nat) : isSingle1 (.single2 c s) = false := rfl

theorem isSingle1_multiple (c : Coverage) (s : List (List Nat)) :
    isSingle1 (.multiple c s) = false := rfl

theorem isSingle1_alternate (c : Coverage) (s : List (List Nat)) :
    isSingle1 (.alternate c s) = false := rfl

theorem isSingle1_ligature (c : Coverage) (s : List (List LigatureTable)) :
    isSingle1 (.ligature c s) = false := rfl

theorem single1List_create (t : GsubTable) (sc lg f : String) (ty : Nat) :
    single1List (getLookupTablesCreate t sc lg f ty).1 = single1List t ∨
      single1List (getLookupTablesCreate t sc lg f ty).1 = single1List t ++ [[]] := by
  rcases create_lookups t sc lg f ty with hc | hc
  · left; unfold single1List; rw [hc]
  · right; unfold single1List; rw [hc]; simp [List.filter]

theorem addSingle_single1List (t : GsubTable) (f sc lg : String) (s b : Nat) (t2 : GsubTable)
    (h : addSingle t f s b sc lg = some t2) :
    single1List t2 = single1List t ∨ single1List t2 = single1List t ++ [[]] := by
  unfold addSingle at h
  dsimp only at h
  split at h
  · exact absurd h (by simp)
  · rename_i lt hlt
    split at h <;> try exact Option.noConfusion h
    rename_i glyphs substitute heq
    injection h with h
    rw [← h]
    rw [single1List_setLookup _ _ lt _ hlt
      (filter_single1_set_subst _ _ _ _ _ (isSingle1_single2 _ _) (isSingle1_single2 _ _) heq)]
    exact single1List_create t sc lg f 1

theorem addMultiple_single1List (t : GsubTable) (f sc lg : String) (s : Nat) (b : List Nat)
    (t2 : GsubTable) (h : addMultiple t f s b sc lg = some t2) :
    single1List t2 = single1List t ∨ single1List t2 = single1List t ++ [[]] := by
  unfold addMultiple at h
  split at h
  · dsimp only at h
    split at h
    · exact absurd h (by simp)
    · rename_i lt hlt
      split at h <;> try exact Option.noConfusion h
      rename_i glyphs sequences heq
      injection h with h
      rw [← h]
      rw [single1List_setLookup _ _ lt _ hlt
        (filter_single1_set_subst _ _ _ _ _ (isSingle1_multiple _ _) (isSingle1_multiple _ _) heq)]
      exact single1List_create t sc lg f 2
  · exact absurd h (by simp)

theorem addAlternate_single1List (t : GsubTable) (f sc lg : String) (s : Nat) (b : List Nat)
    (t2 : GsubTable) (h : addAlternate t f s b sc lg = some t2) :
    single1List t2 = single1List t ∨ single1List t2 = single1List t ++ [[]] := by
  unfold addAlternate at h
  dsimp only at h
  split at h
  · exact absurd h (by simp)
  · rename_i lt hlt
    split at h <;> try exact Option.noConfusion h
    rename_i glyphs alternateSets heq
    injection h with h
    rw [← h]
    rw [single1List_setLookup _ _ lt _ hlt
      (filter_single1_set_subst _ _ _ _ _ (isSingle1_alternate _ _) (isSingle1_alternate _ _) heq)]
    exact single1List_create t sc lg f 3

theorem filter_single1_ligature_set (subtables : List Subtable) (glyphs : List Nat)
    (sets : List (List LigatureTable)) (newSub : Subtable) (hn : isSingle1 newSub = false)
    (heq : (if subtables.isEmpty then [Subtable.ligature (.format1 []) []]
        else subtables).get? 0 = some (.ligature (.format1 glyphs) sets)) :
    ((if subtables.isEmpty then [Subtable.ligature (.format1 []) []]
        else subtables).set 0 newSub).filter isSingle1 = subtables.filter isSingle1 := by
  by_cases hemp : subtables.isEmpty
  · rw [if_pos hemp] at heq ⊢
    rw [List.isEmpty_iff.mp hemp]
    simp [List.filter, hn]
  · rw [if_neg hemp] at heq ⊢
    rw [List.get?_eq_getElem?] at heq
    exact filter_set_same _ subtables 0 _ newSub heq rfl hn

theorem addLigature_single1List (t : GsubTable) (f sc lg : String) (subIds : List Nat)
    (b : Nat) (t2 : GsubTable) (h : addLigature t f subIds b sc lg = some t2) :
    single1List t2 = single1List t ∨ single1List t2 = single1List t ++ [[]] := by
  unfold addLigature at h
  dsimp only at h
  split at h
  · exact absurd h (by simp)
  · rename_i lt hlt
    split at h <;> try exact Option.noConfusion h
    rename_i glyphs sets heq
    split at h <;> try exact Option.noConfusion h
    rename_i covGlyph comps
    split at h
    · split at h
      · injection h with h
        rw [← h]
        exact single1List_create t sc lg f 4
      · injection h with h
        rw [← h]
        rw [single1List_setLookup _ _ lt _ hlt
          (filter_single1_ligature_set _ _ _ _ (isSingle1_ligature _ _) heq)]
        exact single1List_create t sc lg f 4
    · injection h with h
      rw [← h]
      rw [single1List_setLookup _ _ lt _ hlt
        (filter_single1_ligature_set _ _ _ _ (isSingle1_ligature _ _) heq)]
      exact single1List_create t sc lg f 4

theorem mem_of_get? {α : Type} {l : List α} {i : Nat} {a : α} : l.get? i = some a → a ∈ l := by
  rw [List.get?_eq_getElem?]
  intro h
  induction l generalizing i with
  | nil => simp at h
  | cons c tl ih =>
    cases i with
    | zero => simp at h; simp [h]
    | succ j => simp at h; exact List.mem_cons_of_mem c (ih h)

/-- A GSUB tree with feature `ss01` (default script and language) wired to a
type-1 lookup holding only a format-1 (delta 4) single subtable over glyphs
5 and 6. -/
def demoDeltaTree : GsubTable :=
  { version := 1
  , scripts := [⟨"DFLT", some ⟨0, 0xffff, [0]⟩, []⟩]
  , features := [⟨"ss01", 0, [0]⟩]
  , lookups := [⟨1, 0, [.single1 (.format1 [5, 6]) 4]⟩] }

/-- C7: `addSingle` on a lookup whose subtables hold only a format-1 (delta)
single subtable leaves that subtable entirely unchanged and appends a fresh
format-2 subtable (with a fresh format-1 coverage) to receive the mutation;
and no `add*` operation ever writes into or produces a format-1
single-substitution subtable — each operation preserves the per-lookup lists
of format-1 single subtables, except for at most one empty entry for a
freshly created lookup. -/
theorem addSingle_preserves_format1_single
    (t : GsubTable) (feature script language : String) (li : Nat) (lt : LookupTable)
    (c : Coverage) (d : Int) (s b : Nat)
    (hcr : getLookupTablesCreate t script language feature 1 = (t, li))
    (hlt : t.lookups.get? li = some lt)
    (hsub : lt.subtables = [.single1 c d]) :
    (addSingle t feature s b script language =
      some (setLookupSubtables t li [.single1 c d, .single2 (.format1 [s]) [b]])) ∧
    (∀ t0 f sc lg s0 b0 t2, addSingle t0 f s0 b0 sc lg = some t2 →
      single1List t2 = single1List t0 ∨ single1List t2 = single1List t0 ++ [[]]) ∧
    (∀ t0 f sc lg s0 b0 t2, addMultiple t0 f s0 b0 sc lg = some t2 →
      single1List t2 = single1List t0 ∨ single1List t2 = single1List t0 ++ [[]]) ∧
    (∀ t0 f sc lg s0 b0 t2, addAlternate t0 f s0 b0 sc lg = some t2 →
      single1List t2 = single1List t0 ∨ single1List t2 = single1List t0 ++ [[]]) ∧
    (∀ t0 f sc lg s0 b0 t2, addLigature t0 f s0 b0 sc lg = some t2 →
      single1List t2 = single1List t0 ∨ single1List t2 = single1List t0 ++ [[]]) := by
  refine ⟨?_, fun t0 f sc lg s0 b0 t2 h => addSingle_single1List t0 f sc lg s0 b0 t2 h,
    fun t0 f sc lg s0 b0 t2 h => addMultiple_single1List t0 f sc lg s0 b0 t2 h,
    fun t0 f sc lg s0 b0 t2 h => addAlternate_single1List t0 f sc lg s0 b0 t2 h,
    fun t0 f sc lg s0 b0 t2 h => addLigature_single1List t0 f sc lg s0 b0 t2 h⟩
  unfold addSingle
  rw [hcr]
  dsimp only
  rw [hlt]
  dsimp only
  rw [hsub]
  simp [getSubstFormatIdx, List.findIdx?, Subtable.substFormat, binSearch, List.insertIdx]

/-- Witness for C7: on `demoDeltaTree`, `addSingle` appends a format-2
subtable after the untouched delta subtable. -/
theorem addSingle_preserves_format1_single_witness :
    addSingle demoDeltaTree "ss01" 7 9 "DFLT" "dflt" =
      some (setLookupSubtables demoDeltaTree 0
        [.single1 (.format1 [5, 6]) 4, .single2 (.format1 [7]) [9]]) :=
  (addSingle_preserves_format1_single demoDeltaTree "ss01" "DFLT" "dflt" 0
    ⟨1, 0, [.single1 (.format1 [5, 6]) 4]⟩ (.format1 [5, 6]) 4 7 9
    (by rfl) (by rfl) (by rfl)).1

theorem wfSub_default_single2 : WfSub (.single2 (.format1 []) []) := ⟨List.sorted_nil, rfl⟩

theorem wfSub_default_multiple : WfSub (.multiple (.format1 []) []) := ⟨List.sorted_nil, rfl⟩

theorem wfSub_default_alternate : WfSub (.alternate (.format1 []) []) := ⟨List.sorted_nil, rfl⟩

theorem wfSub_default_ligature : WfSub (.ligature (.format1 []) []) := ⟨List.sorted_nil, rfl⟩

/-- Members of the list produced by `getSubstFormatIdx` are either original
subtables or the default subtable. -/
theorem mem_getSubstFormatIdx (sts0 : List Subtable) (fmt : Nat) (dflt st : Subtable)
    (h : st ∈ (getSubstFormatIdx sts0 fmt dflt).1) : st ∈ sts0 ∨ st = dflt := by
  unfold getSubstFormatIdx at h
  cases hfi : sts0.findIdx? (fun s => s.substFormat == fmt) with
  | some i => rw [hfi] at h; exact Or.inl h
  | none =>
    rw [hfi] at h
    rcases List.mem_append.mp h with h1 | h1
    · exact Or.inl h1
    · simp at h1; exact Or.inr h1

theorem addSingle_wf (t : GsubTable) (f sc lg : String) (s b : Nat) (t2 : GsubTable)
    (hwf : WfTree t) (h : addSingle t f s b sc lg = some t2) : WfTree t2 := by
  unfold addSingle at h
  dsimp only at h
  split at h
  · exact absurd h (by simp)
  · rename_i lt hlt
    have hwc : WfTree (getLookupTablesCreate t sc lg f 1).1 := wfTree_create t sc lg f 1 hwf
    have hltmem : lt ∈ (getLookupTablesCreate t sc lg f 1).1.lookups := mem_of_get? hlt
    split at h <;> try exact Option.noConfusion h
    rename_i glyphs substitute heq
    injection h with h
    rw [← h]
    apply wfTree_setLookup _ _ _ hwc
    intro st hst
    rcases List.mem_or_eq_of_mem_set hst with hmem | heq2
    · rcases mem_getSubstFormatIdx _ _ _ _ hmem with h1 | h1
      · exact hwc lt hltmem st h1
      · rw [h1]; exact wfSub_default_single2
    · have hold : WfSub (.single2 (.format1 glyphs) substitute) := by
        rcases mem_getSubstFormatIdx _ _ _ _ (mem_of_get? heq) with h1 | h1
        · exact hwc lt hltmem _ h1
        · injection h1 with h1a h1b
          rw [show glyphs = [] from by injection h1a, show substitute = [] from h1b]
          exact wfSub_default_single2
      obtain ⟨hs, hl⟩ := hold
      rw [heq2]
      by_cases hpos : binSearch glyphs s < 0
      · have hnm : s ∉ glyphs := (binSearch_neg_iff glyphs s).mp hpos
        simp only [if_pos hpos]
        rw [binSearch_neg_toNat glyphs s hnm]
        exact wf_insert glyphs substitute s 0 b hs hl hnm
      · simp only [if_neg hpos]
        exact ⟨hs, by simp [hl]⟩

theorem addMultiple_wf (t : GsubTable) (f sc lg : String) (s : Nat) (b : List Nat)
    (t2 : GsubTable) (hwf : WfTree t) (h : addMultiple t f s b sc lg = some t2) :
    WfTree t2 := by
  unfold addMultiple at h
  split at h
  · dsimp only at h
    split at h
    · exact absurd h (by simp)
    · rename_i lt hlt
      have hwc : WfTree (getLookupTablesCreate t sc lg f 2).1 := wfTree_create t sc lg f 2 hwf
      have hltmem : lt ∈ (getLookupTablesCreate t sc lg f 2).1.lookups := mem_of_get? hlt
      split at h <;> try exact Option.noConfusion h
      rename_i glyphs sequences heq
      injection h with h
      rw [← h]
      apply wfTree_setLookup _ _ _ hwc
      intro st hst
      rcases List.mem_or_eq_of_mem_set hst with hmem | heq2
      · rcases mem_getSubstFormatIdx _ _ _ _ hmem with h1 | h1
        · exact hwc lt hltmem st h1
        · rw [h1]; exact wfSub_default_multiple
      · have hold : WfSub (.multiple (.format1 glyphs) sequences) := by
          rcases mem_getSubstFormatIdx _ _ _ _ (mem_of_get? heq) with h1 | h1
          · exact hwc lt hltmem _ h1
          · injection h1 with h1a h1b
            rw [show glyphs = [] from by injection h1a, show sequences = [] from h1b]
            exact wfSub_default_multiple
        obtain ⟨hs, hl⟩ := hold
        rw [heq2]
        by_cases hpos : binSearch glyphs s < 0
        · have hnm : s ∉ glyphs := (binSearch_neg_iff glyphs s).mp hpos
          simp only [if_pos hpos]
          rw [binSearch_neg_toNat glyphs s hnm]
          exact wf_insert glyphs sequences s [] b hs hl hnm
        · simp only [if_neg hpos]
          exact ⟨hs, by simp [hl]⟩
  · exact absurd h (by simp)

theorem addAlternate_wf (t : GsubTable) (f sc lg : String) (s : Nat) (b : List Nat)
    (t2 : GsubTable) (hwf : WfTree t) (h : addAlternate t f s b sc lg = some t2) :
    WfTree t2 := by
  unfold addAlternate at h
  dsimp only at h
  split at h
  · exact absurd h (by simp)
  · rename_i lt hlt
    have hwc : WfTree (getLookupTablesCreate t sc lg f 3).1 := wfTree_create t sc lg f 3 hwf
    have hltmem : lt ∈ (getLookupTablesCreate t sc lg f 3).1.lookups := mem_of_get? hlt
    split at h <;> try exact Option.noConfusion h
    rename_i glyphs alternateSets heq
    injection h with h
    rw [← h]
    apply wfTree_setLookup _ _ _ hwc
    intro st hst
    rcases List.mem_or_eq_of_mem_set hst with hmem | heq2
    · rcases mem_getSubstFormatIdx _ _ _ _ hmem with h1 | h1
      · exact hwc lt hltmem st h1
      · rw [h1]; exact wfSub_default_alternate
    · have hold : WfSub (.alternate (.format1 glyphs) alternateSets) := by
        rcases mem_getSubstFormatIdx _ _ _ _ (mem_of_get? heq) with h1 | h1
        · exact hwc lt hltmem _ h1
        · injection h1 with h1a h1b
          rw [show glyphs = [] from by injection h1a, show alternateSets = [] from h1b]
          exact wfSub_default_alternate
      obtain ⟨hs, hl⟩ := hold
      rw [heq2]
      by_cases hpos : binSearch glyphs s < 0
      · have hnm : s ∉ glyphs := (binSearch_neg_iff glyphs s).mp hpos
        simp only [if_pos hpos]
        rw [binSearch_neg_toNat glyphs s hnm]
        exact wf_insert glyphs alternateSets s [] b hs hl hnm
      · simp only [if_neg hpos]
        exact ⟨hs, by simp [hl]⟩

theorem addLigature_wf (t : GsubTable) (f sc lg : String) (subIds : List Nat) (b : Nat)
    (t2 : GsubTable) (hwf : WfTree t) (h : addLigature t f subIds b sc lg = some t2) :
    WfTree t2 := by
  unfold addLigature at h
  dsimp only at h
  split at h
  · exact absurd h (by simp)
  · rename_i lt hlt
    have hwc : WfTree (getLookupTablesCreate t sc lg f 4).1 := wfTree_create t sc lg f 4 hwf
    have hltmem : lt ∈ (getLookupTablesCreate t sc lg f 4).1.lookups := mem_of_get? hlt
    split at h <;> try exact Option.noConfusion h
    rename_i glyphs sets heq
    have hmemIf : ∀ st, st ∈ (if lt.subtables.isEmpty
        then [Subtable.ligature (.format1 []) []] else lt.subtables) →
        WfSub st := by
      intro st hst
      by_cases hemp : lt.subtables.isEmpty
      · rw [if_pos hemp] at hst
        simp at hst
        rw [hst]
        exact wfSub_default_ligature
      · rw [if_neg hemp] at hst
        exact hwc lt hltmem st hst
    have hold : WfSub (.ligature (.format1 glyphs) sets) := hmemIf _ (mem_of_get? heq)
    obtain ⟨hs, hl⟩ := hold
    split at h <;> try exact Option.noConfusion h
    rename_i covGlyph comps
    split at h
    · split at h
      · injection h with h
        rw [← h]
        exact hwc
      · injection h with h
        rw [← h]
        apply wfTree_setLookup _ _ _ hwc
        intro st hst
        rcases List.mem_or_eq_of_mem_set hst with hmem | heq2
        · exact hmemIf st hmem
        · rw [heq2]
          exact ⟨hs, by simp [hl]⟩
    · rename_i hpos
      have hneg : binSearch glyphs covGlyph < 0 := by omega
      have hnm : covGlyph ∉ glyphs := (binSearch_neg_iff glyphs covGlyph).mp hneg
      injection h with h
      rw [← h]
      apply wfTree_setLookup _ _ _ hwc
      intro st hst
      rcases List.mem_or_eq_of_mem_set hst with hmem | heq2
      · exact hmemIf st hmem
      · rw [heq2]
        rw [binSearch_neg_toNat glyphs covGlyph hnm]
        have hp : (glyphs.filter (fun a => a < covGlyph)).length ≤ glyphs.length :=
          List.length_filter_le _ _
        refine ⟨pairwise_insertIdx_filter_lt covGlyph glyphs hs hnm, ?_⟩
        rw [List.length_insertIdx _ _ (by omega), List.length_insertIdx _ _ hp, hl]

/-- C6: on a tree satisfying the coverage invariant — every format-1
coverage glyph list strictly ascending with no duplicates, each parallel
array (substitute / sequences / alternateSets / ligatureSets) of the same
length — every mutation (`addSingle`, `addMultiple`, `addAlternate`,
`addLigature`, all deciding overwrite-vs-insert through `binSearch`'s
found → index / not found → `-1 - insertionPoint` convention) preserves the
invariant. -/
theorem add_ops_preserve_invariant (t : GsubTable) (hwf : WfTree t) :
    (∀ f sc lg s b t2, addSingle t f s b sc lg = some t2 → WfTree t2) ∧
    (∀ f sc lg s bs t2, addMultiple t f s bs sc lg = some t2 → WfTree t2) ∧
    (∀ f sc lg s bs t2, addAlternate t f s bs sc lg = some t2 → WfTree t2) ∧
    (∀ f sc lg ss b t2, addLigature t f ss b sc lg = some t2 → WfTree t2) :=
  ⟨fun f sc lg s b t2 h => addSingle_wf t f sc lg s b t2 hwf h,
   fun f sc lg s bs t2 h => addMultiple_wf t f sc lg s bs t2 hwf h,
   fun f sc lg s bs t2 h => addAlternate_wf t f sc lg s bs t2 hwf h,
   fun f sc lg ss b t2 h => addLigature_wf t f sc lg ss b t2 hwf h⟩

/-- Witness for C6: the invariant holds for the tree `addSingle` builds from
the default GSUB table. -/
theorem add_ops_preserve_invariant_witness :
    WfTree { version := 1
             scripts := [⟨"DFLT", some ⟨0, 0xffff, [0]⟩, []⟩]
             features := [⟨"ss01", 0, [0]⟩]
             lookups := [⟨1, 0, [.single2 (.format1 [5]) [9]]⟩] } :=
  (add_ops_preserve_invariant createDefaultTable
    (by intro lt h; simp [createDefaultTable] at h)).1
    "ss01" "DFLT" "dflt" 5 9 _ (by rfl)

/-- The GSUB tree left by `addLigature("liga", {sub:[10,11], by:50})` on the
default table. -/
def demoLigTree : GsubTable :=
  { version := 1
  , scripts := [⟨"DFLT", some ⟨0, 0xffff, [0]⟩, []⟩]
  , features := [⟨"liga", 0, [0]⟩]
  , lookups := [⟨4, 0, [.ligature (.format1 [10]) [[⟨50, [11]⟩]]]⟩] }

/-- C5: for a starting glyph already covered by the resolved ligature
subtable, re-adding a pair whose component sequence already exists leaves
the GSUB tree unchanged, while a new component sequence is appended at the
end of that glyph's existing ligature set without reordering; concretely,
`addLigature({sub:[10,11], by:50})` then `addLigature({sub:[10,12], by:51})`
yields the ligature set `[{components:[11],ligGlyph:50},
{components:[12],ligGlyph:51}]` for glyph 10, and re-adding the identical
pair is a no-op. -/
theorem addLigature_duplicate_noop_and_append
    (t : GsubTable) (li : Nat) (lt : LookupTable) (glyphs : List Nat)
    (sets : List (List LigatureTable)) (feature script language : String)
    (covGlyph : Nat) (comps : List Nat) (byG : Nat) (set0 : List LigatureTable)
    (hcr : getLookupTablesCreate t script language feature 4 = (t, li))
    (hlt : t.lookups.get? li = some lt)
    (hst : lt.subtables.get? 0 = some (.ligature (.format1 glyphs) sets))
    (hmem : covGlyph ∈ glyphs)
    (hset : sets.get? (glyphs.indexOf covGlyph) = some set0) :
    ((set0.any (fun l => l.components == comps)) = true →
      addLigature t feature (covGlyph :: comps) byG script language = some t) ∧
    ((set0.any (fun l => l.components == comps)) = false →
      addLigature t feature (covGlyph :: comps) byG script language =
        some (setLookupSubtables t li (lt.subtables.set 0
          (.ligature (.format1 glyphs)
            (sets.set (glyphs.indexOf covGlyph) (set0 ++ [⟨byG, comps⟩])))))) ∧
    (addLigature createDefaultTable "liga" [10, 11] 50 "DFLT" "dflt" = some demoLigTree ∧
     addLigature demoLigTree "liga" [10, 11] 50 "DFLT" "dflt" = some demoLigTree ∧
     addLigature demoLigTree "liga" [10, 12] 51 "DFLT" "dflt" =
       some { demoLigTree with
         lookups := [⟨4, 0, [.ligature (.format1 [10]) [[⟨50, [11]⟩, ⟨51, [12]⟩]]]⟩] }) := by
  have hne : lt.subtables.isEmpty = false := by
    cases hl : lt.subtables with
    | nil => rw [hl] at hst; simp at hst
    | cons a tl => rfl
  have hpos : binSearch glyphs covGlyph = (glyphs.indexOf covGlyph : Int) :=
    binSearch_nonneg_toNat glyphs covGlyph hmem
  refine ⟨?_, ?_, by rfl, by rfl, by rfl⟩
  · intro hdup
    unfold addLigature
    rw [hcr]
    dsimp only
    rw [hlt]
    dsimp only
    simp only [hne, Bool.false_eq_true, if_false]
    rw [hst]
    dsimp only
    rw [hpos]
    rw [if_pos (Int.natCast_nonneg _)]
    simp only [Int.toNat_natCast, hset, Option.getD_some, hdup, if_true]
  · intro hdup
    unfold addLigature
    rw [hcr]
    dsimp only
    rw [hlt]
    dsimp only
    simp only [hne, Bool.false_eq_true, if_false]
    rw [hst]
    dsimp only
    rw [hpos]
    rw [if_pos (Int.natCast_nonneg _)]
    simp only [Int.toNat_natCast, hset, Option.getD_some, hdup, Bool.false_eq_true, if_false]

/-- Witness for C5: re-adding the identical ligature on `demoLigTree` is a
no-op. -/
theorem addLigature_duplicate_noop_and_append_witness :
    addLigature demoLigTree "liga" (10 :: [11]) 50 "DFLT" "dflt" = some demoLigTree :=
  (addLigature_duplicate_noop_and_append demoLigTree 0
    ⟨4, 0, [.ligature (.format1 [10]) [[⟨50, [11]⟩]]]⟩ [10] [[⟨50, [11]⟩]]
    "liga" "DFLT" "dflt" 10 [11] 50 [⟨50, [11]⟩]
    (by rfl) (by rfl) (by rfl) (by decide) (by rfl)).1 (by rfl)

/-- Spec example: `binSearch([3,7,9,15], 9) == 2`. -/
theorem binSearch_found_example : binSearch [3, 7, 9, 15] 9 = 2 := by decide

/-- Spec example: `binSearch([3,7,9,15], 8) == -3` (insertion point 2). -/
theorem binSearch_missing_example : binSearch [3, 7, 9, 15] 8 = -3 := by decide

/-- Spec example: format-2 coverage expansion flattens ranges inclusively. -/
theorem expandCoverage_example :
    expandCoverage (.format2 [⟨10, 12, 0⟩, ⟨20, 20, 3⟩]) = [10, 11, 12, 20] := by decide

/-- The `/ss\d\d/` test is an unanchored search: it accepts `ss01`,
rejects `stch`, and accepts a tag merely containing `ss` + two digits. -/
theorem ssRegexTest_examples :
    ssRegexTest "ss01" = true ∧ ssRegexTest "stch" = false ∧ ssRegexTest "xss12" = true :=
  ⟨rfl, rfl, rfl⟩

end OpenType
